import Mathlib

/-
Verification development for the measurement pipeline of `weight.py`
(repository pyrolitic/weight).

The Python code is shallowly embedded. Strings are Lean `String`s, Python
floats are modelled as `ℚ` (exact arithmetic; the specification states its
numeric claims "within floating tolerance"), `datetime` values are rational
seconds from a fixed epoch, and the exception kinds that can escape
`parse_samples` (`TypeError`, `ZeroDivisionError`) form an explicit error
type threaded through `Except`.  The `ValueError` raised by the two
regex-based parsers is modelled by `Option`: `none` plays the role of the
exception that the surrounding `except ValueError` handlers catch.
-/

/-- Model of the regex class `\d` (the inputs are ASCII). -/
def isDigitChar (c : Char) : Bool := c.isDigit

/-- Model of the regex class `\s` (the inputs are ASCII). -/
def isSpaceChar (c : Char) : Bool :=
  c = ' ' || c = '\t' || c = '\n' || c = '\r' || c = '\x0b' || c = '\x0c'

/-- Model of the regex class `\w` (the inputs are ASCII). -/
def isWordChar (c : Char) : Bool := c.isAlphanum || c = '_'

/-- First capture group of `UNIT_PATTERN = (\d+(?:\.\d*)?|\.\d+)\s*(\w*)`:
the number matched greedily at the start of the character list, returned
together with the remaining characters.  The alternatives are tried in
regex order; since the rest of the pattern (`\s*\w*`) matches anything, no
further backtracking into the number can occur. -/
def matchNumber (cs : List Char) : Option (List Char × List Char) :=
  let p := cs.span isDigitChar
  if p.1 ≠ [] then
    match p.2 with
    | '.' :: r2 =>
      let q := r2.span isDigitChar
      some (p.1 ++ '.' :: q.1, q.2)
    | _ => some (p.1, p.2)
  else
    match cs with
    | '.' :: r2 =>
      let q := r2.span isDigitChar
      if q.1 ≠ [] then some ('.' :: q.1, q.2) else none
    | _ => none

/-- Embedding of `parse_unit(rec)`: `UNIT_PATTERN.match(rec)` returning the
two capture groups, as strings, exactly like `re.Match.groups()`; `none`
models the `ValueError` raised when the pattern does not match at the start
of the string. -/
def parse_unit (rec : String) : Option (String × String) :=
  match matchNumber rec.toList with
  | none => none
  | some (num, rest) =>
    let r2 := rest.dropWhile isSpaceChar
    some (String.mk num, String.mk (r2.takeWhile isWordChar))

/-- Rest of `FT_IN_PATTERN` after the foot word: `\s*(\d+)` gives the second
capture group (the trailing `\s*(?:i|in|inch|inches|inchs)?` is optional and
never affects the captured groups). -/
def ftinSecond (rest : List Char) : Option (List Char) :=
  let r := rest.dropWhile isSpaceChar
  let q := r.span isDigitChar
  if q.1 ≠ [] then some q.1 else none

/-- Try one case-insensitive alternative of `(?:f|ft|foot|feet)` followed by
the remainder of the pattern (regex backtracking: an alternative only
counts if the remainder also matches). -/
def ftinWord (w : List Char) (r2 : List Char) : Option (List Char) :=
  if (r2.take w.length).map Char.toLower = w then ftinSecond (r2.drop w.length)
  else none

/-- Embedding of `parse_feet_inches(rec)`:
`FT_IN_PATTERN = (\d+)\s*(?:f|ft|foot|feet)\s*(\d+)\s*(?:i|in|inch|inches|inchs)?`
(case-insensitive, anchored at the start), returning the two digit capture
groups as strings; `none` models the `ValueError` on no match.  The foot
alternatives are tried in regex order with backtracking. -/
def parse_feet_inches (rec : String) : Option (String × String) :=
  let cs := rec.toList
  let p := cs.span isDigitChar
  if p.1 = [] then none
  else
    let r2 := p.2.dropWhile isSpaceChar
    match ftinWord ['f'] r2 with
    | some is => some (String.mk p.1, String.mk is)
    | none =>
      match ftinWord ['f', 't'] r2 with
      | some is => some (String.mk p.1, String.mk is)
      | none =>
        match ftinWord ['f', 'o', 'o', 't'] r2 with
        | some is => some (String.mk p.1, String.mk is)
        | none =>
          match ftinWord ['f', 'e', 'e', 't'] r2 with
          | some is => some (String.mk p.1, String.mk is)
          | none => none

/-- Numeric value of a decimal digit string. -/
def digitsVal (cs : List Char) : ℕ :=
  cs.foldl (fun a c => a * 10 + (c.toNat - 48)) 0

/-- Python `float(s)` restricted to the strings produced by the first
capture group of `UNIT_PATTERN`: digits with an optional decimal point. -/
def strToRat (s : String) : ℚ :=
  let cs := s.toList
  let p := cs.span isDigitChar
  let fp := match p.2 with
    | '.' :: r => r.takeWhile isDigitChar
    | _ => []
  (digitsVal p.1 : ℚ) + (digitsVal fp : ℚ) / (10 : ℚ) ^ fp.length

/-- One raw entry of the `samples` list of the input document. -/
structure Sample where
  date : String
  weight : String
  height : String
deriving DecidableEq

/-- The Python exceptions that can escape `parse_samples` (its two `except`
handlers catch only `ValueError`). -/
inductive PyErr where
  | typeError
  | zeroDivisionError
deriving DecidableEq

/-- Embedding of `Datum = namedtuple("Datum", ["date", "age", "weight",
"height", "bmi"])`; `date` is the parsed sample datetime in seconds from
the epoch. -/
structure Datum where
  date : ℚ
  age : ℚ
  weight : ℚ
  height : ℚ
  bmi : ℚ
deriving DecidableEq

/-- Seconds of the astronomical year used by the age computation:
`365.2425 * 24 * 3600`. -/
def secondsPerYear : ℚ := (3652425 : ℚ) / 10000 * 24 * 3600

/-- Python `int()` applied to a (rationally modelled) float: truncation
toward zero. -/
def pytrunc (q : ℚ) : ℤ := if 0 ≤ q then ⌊q⌋ else ⌈q⌉

/-- The two age lines of `parse_samples`:
`age = delta.total_seconds() / (365.2425 * 24 * 3600)` followed by
`age = int(age * 10) / 10.0`, where `delta = d - dob`. -/
def ageOf (dob d : ℚ) : ℚ := (pytrunc ((d - dob) / secondsPerYear * 10) : ℚ) / 10

/-- Body of the `for sample in samples` loop of `parse_samples`.
`.ok none` models `continue` after a caught `ValueError`, `.ok (some r)`
models `data.append(Datum(...))`, and `.error e` models an uncaught
exception.  `dateparse` stands for the external `dateparser.parse`, which
returns `None` (it does not raise) when the date string cannot be parsed.
The `kg` branch executes `weight *= 0.453592` on the capture-group string,
a `TypeError`; the feet-inches branch executes `ft * 0.3048 + inc * 0.0254`
on capture-group strings, likewise a `TypeError`; `d - dob` with `d = None`
is a `TypeError`; and `w / (h/100)**2` with `h = 0` is a
`ZeroDivisionError`. -/
def parseSample (dateparse : String → Option ℚ) (dob : ℚ) (s : Sample) :
    Except PyErr (Option Datum) :=
  match parse_unit s.weight with
  | none => .ok none
  | some (w, wu) =>
    if wu = "kg" then
      .error .typeError
    else
      match parse_unit s.height with
      | some (h, _hu) =>
        (match dateparse s.date with
         | none => .error .typeError
         | some d =>
           if strToRat h = 0 then .error .zeroDivisionError
           else .ok (some ⟨d, ageOf dob d, strToRat w, strToRat h,
             strToRat w / (strToRat h / 100) ^ 2⟩))
      | none =>
        match parse_feet_inches s.height with
        | some _ => .error .typeError
        | none => .ok none

/-- Embedding of `parse_samples(samples, dob)`: the loop over the samples,
threading any uncaught exception. -/
def parse_samples (dateparse : String → Option ℚ) (samples : List Sample)
    (dob : ℚ) : Except PyErr (List Datum) :=
  match samples with
  | [] => .ok []
  | s :: rest =>
    match parseSample dateparse dob s with
    | .error e => .error e
    | .ok none => parse_samples dateparse rest dob
    | .ok (some r) =>
      match parse_samples dateparse rest dob with
      | .error e => .error e
      | .ok rs => .ok (r :: rs)

/-- Model of `datetime.toordinal()` for a datetime given as seconds from
the epoch; the epoch is placed at ordinal 0 (a constant offset is
irrelevant to every property below). -/
def toordinal (t : ℚ) : ℤ := ⌊t / 86400⌋

/-- Embedding of `ords = [x.date.toordinal() for x in data]`. -/
def ordsOf (data : List Datum) : List ℤ := data.map (fun x => toordinal x.date)

/-- Python `min` of a (nonempty) list. -/
def pymin (l : List ℤ) : ℤ :=
  match l with
  | [] => 0
  | a :: rest => rest.foldl min a

/-- Python `max` of a (nonempty) list. -/
def pymax (l : List ℤ) : ℤ :=
  match l with
  | [] => 0
  | a :: rest => rest.foldl max a

/-- Embedding of `fine = list(range(min(ords), max(ords)+1, 1))`. -/
def fineRange (xs : List ℤ) : List ℤ :=
  (List.range (pymax xs - pymin xs + 1).toNat).map
    (fun k : ℕ => pymin xs + (k : ℤ))

/-- Model of `np.searchsorted(x, t)` with the default side `left`: on a
sorted list, the number of elements strictly below `t`. -/
def searchsorted (xs : List ℤ) (t : ℚ) : ℕ :=
  (xs.filter (fun x : ℤ => decide ((x : ℚ) < t))).length

/-- Model of `scipy.interpolate.interp1d(xs, ys, kind="linear",
fill_value="extrapolate")` evaluated at `t`: locate the interval with
`searchsorted` clipped to `[1, len-1]`, then evaluate the chord through the
interval endpoints (the clipping makes the outermost chords extrapolate). -/
def interpLinear (xs : List ℤ) (ys : List ℚ) (t : ℚ) : ℚ :=
  let idx := min (max (searchsorted xs t) 1) (xs.length - 1)
  let xlo : ℚ := (xs.getD (idx - 1) 0 : ℤ)
  let xhi : ℚ := (xs.getD idx 0 : ℤ)
  let ylo := ys.getD (idx - 1) 0
  let yhi := ys.getD idx 0
  (yhi - ylo) / (xhi - xlo) * (t - xlo) + ylo

/-- A dense series: the linear interpolant evaluated at every integer day
of `fineRange`. -/
def denseSeries (xs : List ℤ) (ys : List ℚ) : List ℚ :=
  (fineRange xs).map (fun d : ℤ => interpLinear xs ys (d : ℚ))

/-- Embedding of `hs = height_interp(fine)`. -/
def denseHeights (data : List Datum) : List ℚ :=
  denseSeries (ordsOf data) (data.map Datum.height)

/-- Embedding of `ws = weight_interp(fine)`. -/
def denseWeights (data : List Datum) : List ℚ :=
  denseSeries (ordsOf data) (data.map Datum.weight)

/-- Model of `np.diff`. -/
def pydiff (l : List ℚ) : List ℚ := List.zipWith (fun a b => b - a) l l.tail

/-- Embedding of the weight-delta lines of `main`:
`dws = np.diff(ws); dws = np.append(dws, dws[-1]); dws = -dws * 100`. -/
def dwsSeries (ws : List ℚ) : List ℚ :=
  let d := pydiff ws
  (d ++ [d.getLast?.getD 0]).map (fun x => -x * 100)

/-- A concrete two-record data set (dates two days apart), used as a
witness input below. -/
def data2 : List Datum :=
  [⟨0, 25, 70, 175, 160/7⟩, ⟨172800, 25, 80, 180, 2000/81⟩]

/-- Unfolding lemma: a sample whose loop body raises propagates the error. -/
lemma parse_samples_cons_error {dp : String → Option ℚ} {dob : ℚ} {s : Sample}
    {rest : List Sample} {e : PyErr} (h : parseSample dp dob s = .error e) :
    parse_samples dp (s :: rest) dob = .error e := by
  rw [parse_samples, h]

/-- Unfolding lemma: a sample whose loop body hits `continue` is skipped. -/
lemma parse_samples_cons_none {dp : String → Option ℚ} {dob : ℚ} {s : Sample}
    {rest : List Sample} (h : parseSample dp dob s = .ok none) :
    parse_samples dp (s :: rest) dob = parse_samples dp rest dob := by
  rw [parse_samples, h]

/-- Unfolding lemma: a sample that appends a record. -/
lemma parse_samples_cons_some {dp : String → Option ℚ} {dob : ℚ} {s : Sample}
    {rest : List Sample} {r : Datum} (h : parseSample dp dob s = .ok (some r)) :
    parse_samples dp (s :: rest) dob =
      match parse_samples dp rest dob with
      | .error e => .error e
      | .ok rs => .ok (r :: rs) := by
  rw [parse_samples, h]

/-- Every record appended by the loop body carries the BMI and age exactly
as computed from its own stored fields, and a nonzero height. -/
lemma parseSample_ok_some {dp : String → Option ℚ} {dob : ℚ} {s : Sample}
    {r : Datum} (h : parseSample dp dob s = .ok (some r)) :
    r.bmi = r.weight / (r.height / 100) ^ 2 ∧ r.age = ageOf dob r.date ∧
      r.height ≠ 0 := by
  unfold parseSample at h
  split at h
  · exact absurd h (by simp)
  · split at h
    · exact absurd h (by simp)
    · split at h
      · split at h
        · exact absurd h (by simp)
        · split at h
          · exact absurd h (by simp)
          · rename_i hq0
            simp only [Except.ok.injEq, Option.some.injEq] at h
            subst h
            exact ⟨rfl, rfl, hq0⟩
      · split at h
        · exact absurd h (by simp)
        · exact absurd h (by simp)

/-- Every record of a successful `parse_samples` run satisfies the BMI and
age construction equations. -/
lemma parse_samples_inv {dp : String → Option ℚ} {samples : List Sample}
    {dob : ℚ} {rs : List Datum} (h : parse_samples dp samples dob = .ok rs) :
    ∀ r ∈ rs, r.bmi = r.weight / (r.height / 100) ^ 2 ∧
      r.age = ageOf dob r.date := by
  induction samples generalizing rs with
  | nil =>
    rw [parse_samples] at h
    simp only [Except.ok.injEq] at h
    subst h
    simp
  | cons s rest ih =>
    cases hps : parseSample dp dob s with
    | error e =>
      rw [parse_samples_cons_error hps] at h
      exact absurd h (by simp)
    | ok o =>
      cases o with
      | none =>
        rw [parse_samples_cons_none hps] at h
        exact ih h
      | some r =>
        rw [parse_samples_cons_some hps] at h
        cases hrec : parse_samples dp rest dob with
        | error e => rw [hrec] at h; exact absurd h (by simp)
        | ok rs2 =>
          rw [hrec] at h
          simp only [Except.ok.injEq] at h
          subst h
          intro x hx
          rcases List.mem_cons.mp hx with rfl | hx2
          · obtain ⟨h1, h2, _⟩ := parseSample_ok_some hps
            exact ⟨h1, h2⟩
          · exact ih hrec x hx2

/-- If every sample before `s` either continues or appends a record, and
the body raises on `s`, the whole run raises. -/
lemma parse_samples_error_append {dp : String → Option ℚ} {dob : ℚ}
    {pre post : List Sample} {s : Sample} {e : PyErr}
    (hpre : ∀ t ∈ pre, ∃ o, parseSample dp dob t = .ok o)
    (hs : parseSample dp dob s = .error e) :
    parse_samples dp (pre ++ s :: post) dob = .error e := by
  induction pre with
  | nil => simpa using parse_samples_cons_error hs
  | cons t ts ih =>
    obtain ⟨o, hto⟩ := hpre t (by simp)
    have ih2 := ih (fun u hu => hpre u (List.mem_cons_of_mem t hu))
    cases o with
    | none => rw [List.cons_append, parse_samples_cons_none hto]; exact ih2
    | some r => rw [List.cons_append, parse_samples_cons_some hto, ih2]

/-- A sample whose loop body continues can be deleted from the input
without changing the run at all. -/
lemma parse_samples_skip {dp : String → Option ℚ} {dob : ℚ}
    {pre post : List Sample} {bad : Sample}
    (hbad : parseSample dp dob bad = .ok none) :
    parse_samples dp (pre ++ bad :: post) dob =
      parse_samples dp (pre ++ post) dob := by
  induction pre with
  | nil => simpa using parse_samples_cons_none hbad
  | cons t ts ih =>
    cases hto : parseSample dp dob t with
    | error e =>
      rw [List.cons_append, List.cons_append, parse_samples_cons_error hto,
        parse_samples_cons_error hto]
    | ok o =>
      cases o with
      | none =>
        rw [List.cons_append, List.cons_append, parse_samples_cons_none hto,
          parse_samples_cons_none hto, ih]
      | some r =>
        rw [List.cons_append, List.cons_append, parse_samples_cons_some hto,
          parse_samples_cons_some hto, ih]

/-- Truncation toward zero is monotone. -/
lemma pytrunc_mono {a b : ℚ} (h : a ≤ b) : pytrunc a ≤ pytrunc b := by
  unfold pytrunc
  by_cases ha : 0 ≤ a
  · rw [if_pos ha, if_pos (le_trans ha h)]
    exact Int.floor_le_floor h
  · rw [if_neg ha]
    by_cases hb : 0 ≤ b
    · rw [if_pos hb]
      have h1 : ⌈a⌉ ≤ 0 := Int.ceil_le.mpr (by simpa using le_of_lt (lt_of_not_ge ha))
      have h2 : 0 ≤ ⌊b⌋ := Int.floor_nonneg.mpr hb
      omega
    · rw [if_neg hb]
      exact Int.ceil_le_ceil h

/-- C1: claimed by the spec, for every weight string of the form `"<n> kg"`
the pipeline yields the normalized weight `n` unconverted.  The code
instead takes the branch `if wu == 'kg': weight *= 0.453592`, which both
applies the pound conversion factor to a kilogram value and multiplies the
regex capture group — a string — by a float, so evaluating the pipeline on
the sample with weight `"70 kg"` raises an uncaught `TypeError` instead of
producing a record with weight 70. -/
theorem c1_kg_weight_raises_typeError :
    parse_samples (fun _ => some 0) [⟨"2020-01-15", "70 kg", "175 cm"⟩] 0 =
      .error .typeError := rfl

/-- C2: claimed by the spec, weight strings with a non-`"kg"` unit token are
converted by `n * 0.453592`.  The code leaves them unconverted: the sample
with weight `"70 lb"` produces a record whose weight is exactly 70, and
70 differs from `70 * 0.453592`. -/
theorem c2_lb_weight_not_converted :
    parse_samples (fun _ => some 0) [⟨"2020-01-15", "70 lb", "175 cm"⟩] 0 =
      .ok [⟨0, 0, 70, 175, 160/7⟩] ∧ (70 : ℚ) ≠ 70 * 0.453592 := by
  constructor
  · with_unfolding_all rfl
  · norm_num

/-- C3: claimed by the spec, feet-inches height strings that miss the
simple number-plus-unit shape are normalized by the fallback to
`f*30.48 + i*2.54`.  In the code no string can reach that fallback:
`"5 ft 11 in"` matches both patterns, the primary `parse_unit` wins with
magnitude `"5"` and unit token `"ft"`, and the pipeline stores height 5
(with only a warning) instead of `5*30.48 + 11*2.54 = 180.34`. -/
theorem c3_feet_inches_fallback_never_taken :
    parse_unit "5 ft 11 in" = some ("5", "ft") ∧
    parse_feet_inches "5 ft 11 in" = some ("5", "11") ∧
    parse_samples (fun _ => some 0) [⟨"2020-01-15", "70 lb", "5 ft 11 in"⟩] 0 =
      .ok [⟨0, 0, 70, 5, 28000⟩] ∧
    (5 : ℚ) ≠ 5 * 30.48 + 11 * 2.54 := by
  refine ⟨rfl, rfl, by with_unfolding_all rfl, by norm_num⟩

/-- Any string matched by `FT_IN_PATTERN` starts with a digit and is hence
also matched by `UNIT_PATTERN`: the feet-inches fallback, reached only when
`parse_unit` raises, is dead code. -/
lemma parse_feet_inches_subsumed {s : String} (h : parse_unit s = none) :
    parse_feet_inches s = none := by
  have hm : matchNumber s.toList = none := by
    cases hm : matchNumber s.toList with
    | none => rfl
    | some p => rw [parse_unit, hm] at h; simp at h
  have hsp : (s.toList.span isDigitChar).1 = [] := by
    by_contra hne
    simp only [matchNumber] at hm
    rw [if_pos hne] at hm
    split at hm <;> simp_all
  have hsp2 : s.toList.takeWhile isDigitChar = [] := by
    rw [List.span_eq_take_drop] at hsp
    exact hsp
  rw [parse_feet_inches]
  rw [List.span_eq_take_drop, if_pos]
  simpa using hsp2

/-- C4: `parse_unit` and `parse_feet_inches` return the regex capture
groups as strings; consequently, in a samples list in which every earlier
sample either continues or appends a record, a sample whose weight parses
with unit token exactly `"kg"` (reaching `weight *= 0.453592`), or whose
height misses `UNIT_PATTERN` while matching `FT_IN_PATTERN` (reaching
`ft * 0.3048 + inc * 0.0254`) after its weight parsed with a non-`"kg"`
token, makes `parse_samples` raise an uncaught `TypeError` — the
`except ValueError` handlers do not catch it — so the run aborts and no
record list is produced. -/
theorem c4_string_groups_raise_typeError (dp : String → Option ℚ) (dob : ℚ)
    (pre post : List Sample) (s : Sample)
    (hpre : ∀ t ∈ pre, ∃ o, parseSample dp dob t = .ok o)
    (hs : (∃ w, parse_unit s.weight = some (w, "kg")) ∨
      ((∃ w u, parse_unit s.weight = some (w, u) ∧ u ≠ "kg") ∧
        parse_unit s.height = none ∧ (parse_feet_inches s.height).isSome)) :
    parse_samples dp (pre ++ s :: post) dob = .error .typeError := by
  apply parse_samples_error_append hpre
  rcases hs with ⟨w, hw⟩ | ⟨⟨w, u, hw, hu⟩, hh, hft⟩
  · unfold parseSample
    rw [hw]
    simp
  · rcases Option.isSome_iff_exists.mp hft with ⟨p, hp⟩
    unfold parseSample
    rw [hw, hh, hp]
    simp [hu]

/-- Witness for C4: a one-sample list whose weight is `"70 kg"`. -/
theorem c4_witness :
    parse_samples (fun _ => some 0) [⟨"2021-01-01", "70 kg", "170 cm"⟩] 0 =
      .error .typeError :=
  c4_string_groups_raise_typeError (fun _ => some 0) 0 [] []
    ⟨"2021-01-01", "70 kg", "170 cm"⟩
    (fun t ht => absurd ht (List.not_mem_nil t))
    (Or.inl ⟨"70", rfl⟩)

/-- C5 counterexample: the claim says the record sequence of a list
containing a malformed-weight sample is one shorter than that of the same
list with the malformed entry removed.  Both runs below produce exactly one
record, and 1 is not one less than 1. -/
theorem c5_counterexample :
    (parse_samples (fun _ => some 0) [⟨"2020-01-15", "70 lb", "175 cm"⟩,
        ⟨"2020-01-16", "abc", "175 cm"⟩] 0).map List.length = .ok 1 ∧
    (parse_samples (fun _ => some 0)
        [⟨"2020-01-15", "70 lb", "175 cm"⟩] 0).map List.length = .ok 1 ∧
    (1 : ℕ) ≠ 1 - 1 := by
  refine ⟨by with_unfolding_all rfl, by with_unfolding_all rfl, by decide⟩

/-- C5 amended: a sample whose weight string has no parseable leading
number is dropped and only it: the run equals the run on the same list
with that entry removed — same records, same length (not one less) — so no
exception escapes on account of the malformed sample and processing
continues with the subsequent samples. -/
theorem c5_amended_malformed_sample_dropped (dp : String → Option ℚ)
    (dob : ℚ) (pre post : List Sample) (bad : Sample)
    (hbad : parse_unit bad.weight = none) :
    parse_samples dp (pre ++ bad :: post) dob =
      parse_samples dp (pre ++ post) dob := by
  apply parse_samples_skip
  unfold parseSample
  rw [hbad]

/-- Witness for the amended C5: dropping the `"abc"` weight sample leaves
the run on the remaining good sample unchanged. -/
theorem c5_witness :
    parse_samples (fun _ => some 0) [⟨"2020-01-16", "abc", "175 cm"⟩,
        ⟨"2020-01-17", "69 lb", "174 cm"⟩] 0 =
      parse_samples (fun _ => some 0) [⟨"2020-01-17", "69 lb", "174 cm"⟩] 0 :=
  c5_amended_malformed_sample_dropped (fun _ => some 0) 0 []
    [⟨"2020-01-17", "69 lb", "174 cm"⟩] ⟨"2020-01-16", "abc", "175 cm"⟩ rfl

/-- C6: every record constructed by `parse_samples` satisfies
`bmi == weight_kg / (height_cm/100)^2` exactly, with its own stored weight
and height fields; records are immutable values, so the field is never
recomputed or mutated afterwards. -/
theorem c6_bmi_invariant (dp : String → Option ℚ) (samples : List Sample)
    (dob : ℚ) (rs : List Datum) (h : parse_samples dp samples dob = .ok rs) :
    ∀ r ∈ rs, r.bmi = r.weight / (r.height / 100) ^ 2 := by
  intro r hr
  exact (parse_samples_inv h r hr).1

/-- Witness for C6 on a concrete run. -/
theorem c6_witness :
    (⟨0, 0, 72, 175, (72 : ℚ) / ((175 : ℚ) / 100) ^ 2⟩ : Datum).bmi =
      (⟨0, 0, 72, 175, (72 : ℚ) / ((175 : ℚ) / 100) ^ 2⟩ : Datum).weight /
        ((⟨0, 0, 72, 175, (72 : ℚ) / ((175 : ℚ) / 100) ^ 2⟩ : Datum).height /
          100) ^ 2 :=
  c6_bmi_invariant (fun _ => some 0) [⟨"2020-01-15", "72 lb", "175 cm"⟩] 0
    [⟨0, 0, 72, 175, (72 : ℚ) / ((175 : ℚ) / 100) ^ 2⟩]
    (by with_unfolding_all rfl) _ (List.mem_singleton.mpr rfl)

/-- C7 counterexample: the claim says an unparseable sample date is a local
failure — the sample is discarded and the run continues.  In the code
`dateparser.parse` returns `None` and the later `delta = (d - dob)` raises
a `TypeError` that no handler catches: the run aborts. -/
theorem c7_counterexample :
    parse_samples (fun _ => none) [⟨"not a date", "70 lb", "175 cm"⟩] 0 =
      .error .typeError := rfl

/-- C7 amended: a sample whose date string cannot be parsed is not
discarded; once its weight parses with a non-`"kg"` token and its height
parses, the loop reaches `d - dob` with `d = None` and an uncaught
`TypeError` propagates out of `parse_samples`, aborting the whole run
(earlier samples that continued or appended records notwithstanding). -/
theorem c7_amended_bad_date_aborts (dp : String → Option ℚ) (dob : ℚ)
    (pre post : List Sample) (s : Sample)
    (hpre : ∀ t ∈ pre, ∃ o, parseSample dp dob t = .ok o)
    (hdate : dp s.date = none)
    (hw : ∃ w u, parse_unit s.weight = some (w, u) ∧ u ≠ "kg")
    (hh : (parse_unit s.height).isSome) :
    parse_samples dp (pre ++ s :: post) dob = .error .typeError := by
  apply parse_samples_error_append hpre
  rcases hw with ⟨w, u, hw, hu⟩
  rcases Option.isSome_iff_exists.mp hh with ⟨⟨h, hu2⟩, hhp⟩
  unfold parseSample
  rw [hw, hhp, hdate]
  simp [hu]

/-- Witness for the amended C7. -/
theorem c7_witness :
    parse_samples (fun _ => none) [⟨"someday", "80 lb", "180 cm"⟩] 0 =
      .error .typeError :=
  c7_amended_bad_date_aborts (fun _ => none) 0 [] []
    ⟨"someday", "80 lb", "180 cm"⟩
    (fun t ht => absurd ht (List.not_mem_nil t))
    rfl ⟨"80", "lb", rfl, by decide⟩ rfl

/-- C8 counterexample: the claim computes `age_years` with `floor`.  For a
sample dated 20 days before the date of birth the code's `int()` truncates
toward zero and stores age 0.0, while the claimed floor formula gives
-0.1. -/
theorem c8_counterexample :
    parse_samples (fun _ => some 0) [⟨"1995-05-04", "70 lb", "175 cm"⟩]
        1728000 = .ok [⟨0, 0, 70, 175, 160/7⟩] ∧
    ((⌊((0 : ℚ) - 1728000) / secondsPerYear * 10⌋ : ℚ) / 10 ≠ (0 : ℚ)) := by
  constructor
  · with_unfolding_all rfl
  · norm_num [secondsPerYear]

/-- C8 amended: `age_years` equals truncation toward zero (Python `int()`)
of `(date - dob).total_seconds() / (365.2425*24*3600) * 10`, divided by
10 — one decimal place, and identical to the claimed floor form whenever
`date ≥ dob` — and it is monotonically non-decreasing in the sample date
for a fixed date of birth. -/
theorem c8_amended_age_trunc_monotone :
    (∀ (dp : String → Option ℚ) (samples : List Sample) (dob : ℚ)
        (rs : List Datum), parse_samples dp samples dob = .ok rs →
        ∀ r ∈ rs, r.age = ageOf dob r.date) ∧
    (∀ dob d1 d2 : ℚ, d1 ≤ d2 → ageOf dob d1 ≤ ageOf dob d2) := by
  constructor
  · intro dp samples dob rs h r hr
    exact (parse_samples_inv h r hr).2
  · intro dob d1 d2 h
    unfold ageOf
    have hY : (0 : ℚ) < secondsPerYear := by norm_num [secondsPerYear]
    have harg : (d1 - dob) / secondsPerYear * 10 ≤ (d2 - dob) / secondsPerYear * 10 := by
      have := div_le_div_of_nonneg_right (sub_le_sub_right h dob) hY.le
      linarith
    have hmono := pytrunc_mono harg
    have hcast : ((pytrunc ((d1 - dob) / secondsPerYear * 10) : ℤ) : ℚ) ≤
        ((pytrunc ((d2 - dob) / secondsPerYear * 10) : ℤ) : ℚ) :=
      Int.cast_le.mpr hmono
    linarith

/-- Witness for the amended C8: a concrete record's age field, and
monotonicity at two concrete dates. -/
theorem c8_witness :
    (⟨0, 0, 71, 175, (71 : ℚ) / ((175 : ℚ) / 100) ^ 2⟩ : Datum).age =
      ageOf 0 (⟨0, 0, 71, 175, (71 : ℚ) / ((175 : ℚ) / 100) ^ 2⟩ : Datum).date ∧
    ageOf 0 0 ≤ ageOf 0 86400 :=
  ⟨c8_amended_age_trunc_monotone.1 (fun _ => some 0)
      [⟨"2020-01-15", "71 lb", "175 cm"⟩] 0
      [⟨0, 0, 71, 175, (71 : ℚ) / ((175 : ℚ) / 100) ^ 2⟩]
      (by with_unfolding_all rfl) _ (List.mem_singleton.mpr rfl),
    c8_amended_age_trunc_monotone.2 0 0 86400 (by norm_num)⟩

/-- Folding `min` over a list bounds every element of the list (and the
seed) from below. -/
lemma foldl_min_le {l : List ℤ} : ∀ {a x : ℤ}, x ∈ a :: l → l.foldl min a ≤ x := by
  induction l with
  | nil =>
    intro a x hx
    rw [List.mem_singleton] at hx
    subst hx
    exact le_refl _
  | cons b t ih =>
    intro a x hx
    have hh : t.foldl min (min a b) ≤ min a b := ih (List.mem_cons_self _ _)
    rcases List.mem_cons.mp hx with rfl | hx2
    · exact le_trans hh (min_le_left _ _)
    · rcases List.mem_cons.mp hx2 with rfl | hx3
      · exact le_trans hh (min_le_right _ _)
      · exact ih (List.mem_cons_of_mem _ hx3)

/-- Folding `max` over a list bounds every element of the list (and the
seed) from above. -/
lemma le_foldl_max {l : List ℤ} : ∀ {a x : ℤ}, x ∈ a :: l → x ≤ l.foldl max a := by
  induction l with
  | nil =>
    intro a x hx
    rw [List.mem_singleton] at hx
    subst hx
    exact le_refl _
  | cons b t ih =>
    intro a x hx
    have hh : max a b ≤ t.foldl max (max a b) := ih (List.mem_cons_self _ _)
    rcases List.mem_cons.mp hx with rfl | hx2
    · exact le_trans (le_max_left _ _) hh
    · rcases List.mem_cons.mp hx2 with rfl | hx3
      · exact le_trans (le_max_right _ _) hh
      · exact ih (List.mem_cons_of_mem _ hx3)

/-- Python `min` bounds every member. -/
lemma pymin_le {l : List ℤ} {x : ℤ} (hx : x ∈ l) : pymin l ≤ x := by
  cases l with
  | nil => exact absurd hx (List.not_mem_nil x)
  | cons a rest => exact foldl_min_le hx

/-- Python `max` bounds every member. -/
lemma le_pymax {l : List ℤ} {x : ℤ} (hx : x ∈ l) : x ≤ pymax l := by
  cases l with
  | nil => exact absurd hx (List.not_mem_nil x)
  | cons a rest => exact le_foldl_max hx

/-- On a strictly sorted list, exactly the first `i` elements lie strictly
below element `i`. -/
lemma sorted_filter_lt_length :
    ∀ (xs : List ℤ) (i : ℕ), xs.Pairwise (· < ·) → i < xs.length →
      (xs.filter (fun x => decide (x < xs.getD i 0))).length = i := by
  intro xs
  induction xs with
  | nil =>
    intro i _ hi
    exact absurd hi (by simp)
  | cons a rest ih =>
    intro i hp hi
    obtain ⟨ha, hrest⟩ := List.pairwise_cons.mp hp
    cases i with
    | zero =>
      rw [List.getD_cons_zero, List.length_eq_zero, List.filter_eq_nil_iff]
      intro x hx
      simp only [decide_eq_true_eq]
      rcases List.mem_cons.mp hx with rfl | hx2
      · exact lt_irrefl x
      · exact not_lt.mpr (ha x hx2).le
    | succ j =>
      have hj : j < rest.length := by simpa using hi
      have hmem : rest.getD j 0 ∈ rest := by
        rw [List.getD_eq_getElem rest 0 hj]
        exact List.getElem_mem hj
      rw [List.getD_cons_succ, List.filter_cons,
        if_pos (by simpa using ha _ hmem)]
      simp only [List.length_cons]
      rw [ih j hrest hj]

/-- On a strictly sorted list, `searchsorted` at the value of knot `i`
returns `i`. -/
lemma searchsorted_knot {xs : List ℤ} (hp : xs.Pairwise (· < ·)) {i : ℕ}
    (hi : i < xs.length) :
    searchsorted xs ((xs.getD i 0 : ℤ) : ℚ) = i := by
  have hfun : (fun x : ℤ => decide ((x : ℚ) < ((xs.getD i 0 : ℤ) : ℚ))) =
      (fun x : ℤ => decide (x < xs.getD i 0)) := by
    funext x
    rw [decide_eq_decide]
    exact Int.cast_lt
  rw [searchsorted, hfun]
  exact sorted_filter_lt_length xs i hp hi

/-- Strict sortedness read through `getD`. -/
lemma pairwise_getD_lt {xs : List ℤ} (hp : xs.Pairwise (· < ·)) {i j : ℕ}
    (hij : i < j) (hj : j < xs.length) : xs.getD i 0 < xs.getD j 0 := by
  have hi : i < xs.length := lt_trans hij hj
  rw [List.getD_eq_getElem xs 0 hi, List.getD_eq_getElem xs 0 hj]
  exact List.pairwise_iff_getElem.mp hp i j hi hj hij

/-- The linear interpolant evaluated at knot `i` returns the value stored
at knot `i` (exact arithmetic). -/
lemma interpLinear_knot {xs : List ℤ} {ys : List ℚ} (h2 : 2 ≤ xs.length)
    (hp : xs.Pairwise (· < ·)) {i : ℕ} (hi : i < xs.length) :
    interpLinear xs ys ((xs.getD i 0 : ℤ) : ℚ) = ys.getD i 0 := by
  simp only [interpLinear, searchsorted_knot hp hi]
  rcases Nat.eq_zero_or_pos i with rfl | hpos
  · have hidx : min (max 0 1) (xs.length - 1) = 1 := by omega
    rw [hidx]
    simp
  · have hidx : min (max i 1) (xs.length - 1) = i := by omega
    rw [hidx]
    have hlt : xs.getD (i - 1) 0 < xs.getD i 0 :=
      pairwise_getD_lt hp (by omega) hi
    have hne : ((xs.getD i 0 : ℤ) : ℚ) - ((xs.getD (i - 1) 0 : ℤ) : ℚ) ≠ 0 := by
      rw [sub_ne_zero]
      exact_mod_cast hlt.ne'
    rw [div_mul_cancel₀ _ hne]
    ring

/-- The dense series covers one value per integer day of the inclusive
ordinal range. -/
lemma denseSeries_length (xs : List ℤ) (ys : List ℚ) :
    (denseSeries xs ys).length = (pymax xs - pymin xs + 1).toNat := by
  simp [denseSeries, fineRange]

/-- The dense series passes exactly through every knot. -/
lemma denseSeries_knot {xs : List ℤ} {ys : List ℚ} (h2 : 2 ≤ xs.length)
    (hp : xs.Pairwise (· < ·)) {i : ℕ} (hi : i < xs.length) :
    (denseSeries xs ys).getD (xs.getD i 0 - pymin xs).toNat 0 = ys.getD i 0 := by
  have hmem : xs.getD i 0 ∈ xs := by
    rw [List.getD_eq_getElem xs 0 hi]
    exact List.getElem_mem hi
  have hlo := pymin_le hmem
  have hhi := le_pymax hmem
  have hlen : (xs.getD i 0 - pymin xs).toNat < (denseSeries xs ys).length := by
    rw [denseSeries_length]
    omega
  rw [List.getD_eq_getElem _ 0 hlen]
  simp only [denseSeries, fineRange, List.getElem_map, List.getElem_range]
  have harg : pymin xs + ((xs.getD i 0 - pymin xs).toNat : ℤ) = xs.getD i 0 := by
    omega
  rw [harg]
  exact interpLinear_knot h2 hp hi

/-- C9: for a record sequence of at least 2 records with strictly
increasing ordinal dates, the dense interpolated height and weight series
each have length `max_ordinal - min_ordinal + 1`, and at the ordinal day of
record `i` they take exactly that record's stored height and weight. -/
theorem c9_dense_series_through_records (data : List Datum) (i : ℕ)
    (h2 : 2 ≤ data.length) (hp : (ordsOf data).Pairwise (· < ·))
    (hi : i < data.length) :
    (denseHeights data).length =
      (pymax (ordsOf data) - pymin (ordsOf data) + 1).toNat ∧
    (denseWeights data).length =
      (pymax (ordsOf data) - pymin (ordsOf data) + 1).toNat ∧
    (denseHeights data).getD
        ((ordsOf data).getD i 0 - pymin (ordsOf data)).toNat 0 =
      (data.map Datum.height).getD i 0 ∧
    (denseWeights data).getD
        ((ordsOf data).getD i 0 - pymin (ordsOf data)).toNat 0 =
      (data.map Datum.weight).getD i 0 := by
  have hlen : (ordsOf data).length = data.length := by simp [ordsOf]
  refine ⟨denseSeries_length _ _, denseSeries_length _ _, ?_, ?_⟩
  · exact denseSeries_knot (by omega) hp (by omega)
  · exact denseSeries_knot (by omega) hp (by omega)

/-- Witness for C9 at the second record of `data2`. -/
theorem c9_witness :
    (denseHeights data2).length =
      (pymax (ordsOf data2) - pymin (ordsOf data2) + 1).toNat ∧
    (denseWeights data2).length =
      (pymax (ordsOf data2) - pymin (ordsOf data2) + 1).toNat ∧
    (denseHeights data2).getD
        ((ordsOf data2).getD 1 0 - pymin (ordsOf data2)).toNat 0 =
      (data2.map Datum.height).getD 1 0 ∧
    (denseWeights data2).getD
        ((ordsOf data2).getD 1 0 - pymin (ordsOf data2)).toNat 0 =
      (data2.map Datum.weight).getD 1 0 :=
  c9_dense_series_through_records data2 1 (by decide)
    (by with_unfolding_all decide) (by decide)

/-- Length of `np.diff`. -/
lemma pydiff_length (l : List ℚ) : (pydiff l).length = l.length - 1 := by
  rw [pydiff, List.length_zipWith, List.length_tail]
  omega

/-- Entries of `np.diff`. -/
lemma pydiff_getElem (ws : List ℚ) (i : ℕ) (h : i < (pydiff ws).length) :
    (pydiff ws)[i] = ws.getD (i + 1) 0 - ws.getD i 0 := by
  have hi : i + 1 < ws.length := by
    rw [pydiff_length] at h
    omega
  simp only [pydiff, List.getElem_zipWith, List.getElem_tail]
  rw [List.getD_eq_getElem ws 0 (by omega : i < ws.length),
    List.getD_eq_getElem ws 0 hi]

/-- The appended last element of the delta series equals its second-to-last
entry, already before scaling. -/
lemma getLast?_getD_eq (l : List ℚ) :
    l.getLast?.getD 0 = l.getD (l.length - 1) 0 := by
  rw [List.getLast?_eq_getElem?, List.getD_eq_getElem?_getD]

/-- Length of the weight-delta series. -/
lemma dwsSeries_length (ws : List ℚ) (h : 1 ≤ ws.length) :
    (dwsSeries ws).length = ws.length := by
  simp only [dwsSeries, List.length_map, List.length_append,
    List.length_singleton, pydiff_length]
  omega

/-- Entries of the weight-delta series below the duplicated tail. -/
lemma dwsSeries_getD (ws : List ℚ) (i : ℕ) (hi : i + 1 < ws.length) :
    (dwsSeries ws).getD i 0 = -(ws.getD (i + 1) 0 - ws.getD i 0) * 100 := by
  have hd : i < (pydiff ws).length := by
    rw [pydiff_length]
    omega
  have hlen : i < (dwsSeries ws).length := by
    rw [dwsSeries_length ws (by omega)]
    omega
  rw [List.getD_eq_getElem _ 0 hlen]
  simp only [dwsSeries, List.getElem_map]
  rw [List.getElem_append_left hd, pydiff_getElem ws i hd]

/-- C10: the weight-delta series has the same length as the dense weight
series it is derived from, its last two entries are equal (the final entry
duplicates the second-to-last difference), and each entry below the tail is
the first difference at that position, scaled by 100 and sign-flipped. -/
theorem c10_weight_delta_series (ws : List ℚ) (i : ℕ)
    (h2 : 2 ≤ ws.length) (hi : i + 1 < ws.length) :
    (dwsSeries ws).length = ws.length ∧
    (dwsSeries ws).getD (ws.length - 1) 0 =
      (dwsSeries ws).getD (ws.length - 2) 0 ∧
    (dwsSeries ws).getD i 0 = -(ws.getD (i + 1) 0 - ws.getD i 0) * 100 := by
  refine ⟨dwsSeries_length ws (by omega), ?_, dwsSeries_getD ws i hi⟩
  have hdlen : (pydiff ws).length = ws.length - 1 := pydiff_length ws
  have hlast : (dwsSeries ws).getD (ws.length - 1) 0 =
      -((pydiff ws).getD ((pydiff ws).length - 1) 0) * 100 := by
    have hlen1 : ws.length - 1 < (dwsSeries ws).length := by
      rw [dwsSeries_length ws (by omega)]
      omega
    rw [List.getD_eq_getElem _ 0 hlen1]
    simp only [dwsSeries, List.getElem_map]
    rw [List.getElem_append_right (by omega)]
    simp only [List.getElem_singleton]
    rw [getLast?_getD_eq]
  have hprev : (dwsSeries ws).getD (ws.length - 2) 0 =
      -((pydiff ws).getD ((pydiff ws).length - 1) 0) * 100 := by
    have hd2 : ws.length - 2 < (pydiff ws).length := by omega
    have hlen2 : ws.length - 2 < (dwsSeries ws).length := by
      rw [dwsSeries_length ws (by omega)]
      omega
    rw [List.getD_eq_getElem _ 0 hlen2]
    simp only [dwsSeries, List.getElem_map]
    rw [List.getElem_append_left hd2]
    have hidx : (pydiff ws).length - 1 = ws.length - 2 := by omega
    rw [hidx, List.getD_eq_getElem _ 0 hd2]
  rw [hlast, hprev]

/-- Witness for C10 on the dense weight list `[1, 2, 4]`. -/
theorem c10_witness :
    (dwsSeries [1, 2, 4]).length = ([1, 2, 4] : List ℚ).length ∧
    (dwsSeries [1, 2, 4]).getD (([1, 2, 4] : List ℚ).length - 1) 0 =
      (dwsSeries [1, 2, 4]).getD (([1, 2, 4] : List ℚ).length - 2) 0 ∧
    (dwsSeries [1, 2, 4]).getD 0 0 =
      -(([1, 2, 4] : List ℚ).getD (0 + 1) 0 - ([1, 2, 4] : List ℚ).getD 0 0) *
        100 :=
  c10_weight_delta_series [1, 2, 4] 0 (by decide) (by decide)

